import Mathlib

/-!
# Verification of the nuclide-open-files-rpc FileCache

A shallow embedding of `src/pkg/nuclide-open-files-rpc/lib/FileCache.js`.

Modelling conventions:
* `NuclideUri` file paths are modelled as lists of path segments (`List String`).
* The `simple-text-buffer` collaborator (out of scope per the spec, "standard
  line/column semantics") is modelled with character-offset ranges: a buffer's
  text is a `List Char`, a range is a pair of offsets, `getTextInRange` is a
  slice and `setTextInRange` is a splice.  `setTextInRange` bumps the buffer's
  monotonic `changeCount` by one, as the collaborator does on each mutation.
* The JavaScript `Map` of buffers is modelled as an insertion-ordered
  association list with `Map.get` / `Map.set` / `Map.delete` semantics
  (`set` replaces in place, `delete` removes the entry for the key).
* `invariant(...)` failures (thrown before any mutation) are modelled as a
  `desync` error outcome that leaves the state unchanged and publishes nothing.
* Each call to `update` publishes exactly one canonical `LocalFileEvent`;
  a step therefore returns the list of events it published (empty or singleton).
-/

/-- A file path (`NuclideUri`), modelled as its list of path segments. -/
abbrev NuclideUri := List String

/-- A text range, modelled with character offsets (`start` inclusive,
`stop` exclusive).  The source's `atom$Range` uses line/column points; the
claims under verification do not depend on the addressing scheme. -/
structure TextRange where
  start : Nat
  stop : Nat
  deriving DecidableEq, Repr

/-- `buffer.getTextInRange(range)` of the text-buffer collaborator. -/
def getTextInRange (text : List Char) (r : TextRange) : List Char :=
  (text.take r.stop).drop r.start

/-- `buffer.setTextInRange(range, newText)` of the text-buffer collaborator:
replace the slice at `r` by `newText`. -/
def setTextInRange (text : List Char) (r : TextRange) (newText : List Char) :
    List Char :=
  text.take r.start ++ newText ++ text.drop r.stop

/-- `buffer.getRange()`: the range spanning the whole text. -/
def getRange (text : List Char) : TextRange :=
  ⟨0, text.length⟩

/-- The text-buffer collaborator (`simpleTextBuffer$TextBuffer`): in-memory
text plus the monotonic `changeCount` bumped on each mutation. -/
structure TextBuffer where
  text : List Char
  changeCount : Nat
  deriving DecidableEq, Repr

/-- `FileEvent` from `rpc-types`: the tagged variants submitted to
`onFileEvent`.  Each carries its `fileVersion`'s path and version. -/
inductive FileEvent where
  | OPEN (filePath : NuclideUri) (contents : List Char) (version : Nat)
  | CLOSE (filePath : NuclideUri) (version : Nat)
  | EDIT (filePath : NuclideUri) (oldRange : TextRange) (oldText : List Char)
      (newRange : TextRange) (newText : List Char) (version : Nat)
  | SYNC (filePath : NuclideUri) (contents : List Char) (version : Nat)
  deriving DecidableEq, Repr

/-- `LocalFileEvent`: the canonical events published on `_fileEvents`
(the `FileEvent` variants minus `SYNC`).  Field order follows
`createOpenEvent` / `createCloseEvent` / `createEditEvent`. -/
inductive LocalFileEvent where
  | OPEN (filePath : NuclideUri) (version : Nat) (contents : List Char)
  | CLOSE (filePath : NuclideUri) (version : Nat)
  | EDIT (filePath : NuclideUri) (version : Nat) (oldRange : TextRange)
      (oldText : List Char) (newRange : TextRange) (newText : List Char)
  deriving DecidableEq, Repr

/-- The errors `onFileEvent` can raise: `invariant` failures (the spec's
`DesyncError`) and the `default:` branch's unknown-kind error (the spec's
`UnrecognizedEvent`; unreachable here because `FileEvent` is a closed
variant type). -/
inductive FCError where
  | desync
  | unrecognized
  deriving DecidableEq, Repr

/-- `Map.get` on the buffer map. -/
def mapGet : List (NuclideUri × TextBuffer) → NuclideUri → Option TextBuffer
  | [], _ => none
  | (k', v) :: rest, k => if k' = k then some v else mapGet rest k

/-- `Map.set` on the buffer map: replace in place if the key is present
(preserving its position in iteration order), else append. -/
def mapSet : List (NuclideUri × TextBuffer) → NuclideUri → TextBuffer →
    List (NuclideUri × TextBuffer)
  | [], k, v => [(k, v)]
  | (k', v') :: rest, k, v =>
    if k' = k then (k, v) :: rest else (k', v') :: mapSet rest k v

/-- `Map.delete` on the buffer map: remove the entry for the key (a
JavaScript `Map` holds at most one entry per key). -/
def mapDelete : List (NuclideUri × TextBuffer) → NuclideUri →
    List (NuclideUri × TextBuffer)
  | [], _ => []
  | (k', v') :: rest, k =>
    if k' = k then rest else (k', v') :: mapDelete rest k

/-- The `FileCache` state: `_buffers` (an insertion-ordered map from path to
buffer) and the current value of `_directoryEvents` (the open-directory set,
modelled in iteration order). -/
structure FileCache where
  buffers : List (NuclideUri × TextBuffer)
  openDirectories : List NuclideUri
  deriving DecidableEq, Repr

/-- The outcome of one `onFileEvent` call: the error thrown (if any), the
cache state afterwards, and the canonical events published via `update`.
A thrown `invariant` leaves the state untouched (all checks precede any
mutation in the source) and publishes nothing. -/
structure StepResult where
  error : Option FCError
  cache : FileCache
  events : List LocalFileEvent
  deriving DecidableEq, Repr

/-- `_open(filePath, contents, changeCount)`: create a fresh buffer with the
given contents, set its counter, store it, and publish a canonical `Open`. -/
def FileCache.openFile (s : FileCache) (filePath : NuclideUri)
    (contents : List Char) (changeCount : Nat) :
    FileCache × List LocalFileEvent :=
  let newBuffer : TextBuffer := ⟨contents, changeCount⟩
  ({ s with buffers := mapSet s.buffers filePath newBuffer },
   [.OPEN filePath changeCount contents])

/-- `_syncEdit(filePath, buffer, contents, changeCount)`: drop a stale sync
(version strictly below the counter), otherwise replace the whole text,
force-set the counter, and publish a synthesized full-buffer `Edit`. -/
def FileCache.syncEdit (s : FileCache) (filePath : NuclideUri)
    (buffer : TextBuffer) (contents : List Char) (changeCount : Nat) :
    FileCache × List LocalFileEvent :=
  if changeCount < buffer.changeCount then
    (s, [])
  else
    let oldText := buffer.text
    let oldRange := getRange buffer.text
    let newBuffer : TextBuffer := ⟨contents, changeCount⟩
    ({ s with buffers := mapSet s.buffers filePath newBuffer },
     [.EDIT filePath changeCount oldRange oldText (getRange contents) contents])

/-- `_close(filePath, buffer)`: delete the buffer and publish a canonical
`Close` carrying the buffer's last `changeCount`. -/
def FileCache.closeFile (s : FileCache) (filePath : NuclideUri)
    (buffer : TextBuffer) : FileCache × List LocalFileEvent :=
  ({ s with buffers := mapDelete s.buffers filePath },
   [.CLOSE filePath buffer.changeCount])

/-- `onFileEvent(event)`: dispatch on the event kind under the source's
`invariant` checks.  `changeCount` is the event's `fileVersion.version`. -/
def onFileEvent (s : FileCache) (event : FileEvent) : StepResult :=
  match event with
  | .OPEN filePath contents changeCount =>
    match mapGet s.buffers filePath with
    | some _ => ⟨some .desync, s, []⟩     -- invariant(buffer == null)
    | none =>
      let r := s.openFile filePath contents changeCount
      ⟨none, r.1, r.2⟩
  | .CLOSE filePath _ =>
    match mapGet s.buffers filePath with
    | some buffer =>
      let r := s.closeFile filePath buffer
      ⟨none, r.1, r.2⟩
    | none => ⟨none, s, []⟩               -- already closed: not an error
  | .EDIT filePath oldRange oldText _newRange newText changeCount =>
    match mapGet s.buffers filePath with
    | none => ⟨some .desync, s, []⟩       -- invariant(buffer != null)
    | some buffer =>
      -- invariant(buffer.changeCount === changeCount - 1), over integers
      if buffer.changeCount + 1 ≠ changeCount then ⟨some .desync, s, []⟩
      -- invariant(buffer.getTextInRange(event.oldRange) === event.oldText)
      else if getTextInRange buffer.text oldRange ≠ oldText then
        ⟨some .desync, s, []⟩
      else
        let newBuffer : TextBuffer :=
          ⟨setTextInRange buffer.text oldRange newText, buffer.changeCount + 1⟩
        ⟨none, { s with buffers := mapSet s.buffers filePath newBuffer },
         [.EDIT filePath changeCount oldRange oldText _newRange newText]⟩
  | .SYNC filePath contents changeCount =>
    match mapGet s.buffers filePath with
    | none =>
      let r := s.openFile filePath contents changeCount
      ⟨none, r.1, r.2⟩
    | some buffer =>
      let r := s.syncEdit filePath buffer contents changeCount
      ⟨none, r.1, r.2⟩

/-- The path named by a `FileEvent`'s `fileVersion`. -/
def FileEvent.path : FileEvent → NuclideUri
  | .OPEN p _ _ => p
  | .CLOSE p _ => p
  | .EDIT p _ _ _ _ _ => p
  | .SYNC p _ _ => p

/-- Apply a list of events in order, failing as soon as one throws. -/
def runEvents : FileCache → List FileEvent → Option FileCache
  | s, [] => some s
  | s, e :: rest =>
    let r := onFileEvent s e
    match r.error with
    | some _ => none
    | none => runEvents r.cache rest

/-- `FileVersion` from `rpc-types`: a path plus a version number (the
back-reference to the coordinating cache is dropped from the model). -/
structure FileVersion where
  filePath : NuclideUri
  version : Nat
  deriving DecidableEq, Repr

/-- `getBuffer(filePath)`: read-only lookup in `_buffers`. -/
def FileCache.getBuffer (s : FileCache) (filePath : NuclideUri) :
    Option TextBuffer :=
  mapGet s.buffers filePath

/-- `getBufferAtVersion(fileVersion)` after its
`_requests.waitForBufferAtVersion` await resolves: `waitResult` is the
boolean the Version Coordinator resolved the wait with (the suspension
itself is not modelled).  On `true` the source re-checks that the buffer
still exists and its counter equals the requested version. -/
def FileCache.getBufferAtVersion (s : FileCache) (waitResult : Bool)
    (fileVersion : FileVersion) : Option TextBuffer :=
  if !waitResult then none
  else
    match s.getBuffer fileVersion.filePath with
    | some buffer =>
      if buffer.changeCount = fileVersion.version then some buffer else none
    | none => none

/-- `_tryGetBufferAtVersionSynchronously(fileVersion)`: `isAtVersion` is the
answer of `_requests.isBufferAtVersion(fileVersion)` (the Version
Coordinator's state lives outside the cache and is abstracted to its
boolean answer). -/
def FileCache.tryGetBufferAtVersionSynchronously (s : FileCache)
    (isAtVersion : Bool) (fileVersion : FileVersion) : Option TextBuffer :=
  if !isAtVersion then none
  else
    match s.getBuffer fileVersion.filePath with
    | some buffer =>
      if buffer.changeCount = fileVersion.version then some buffer else none
    | none => none

/-- `getOpenDirectories()`: the current `_directoryEvents` value. -/
def FileCache.getOpenDirectories (s : FileCache) : List NuclideUri :=
  s.openDirectories

/-- Modelled from the spec: `nuclideUri.contains(dir, path)` (the
`nuclideUri` module is not part of the sources).  Per the spec,
`containingDirectory` looks for "a path-ancestor of the given path"; on
segment lists that is the prefix relation. -/
def uriContains (dir filePath : NuclideUri) : Bool :=
  dir.isPrefixOf filePath

/-- `getContainingDirectory(filePath)`: the first open directory in
iteration order that contains the path. -/
def FileCache.getContainingDirectory (s : FileCache)
    (filePath : NuclideUri) : Option NuclideUri :=
  s.getOpenDirectories.find? (fun dir => uriContains dir filePath)

/-- `observeFileEvents()`: the replay prefix handed to a new subscriber —
one synthetic `Open` per entry of `_buffers`, in iteration order, capturing
the buffer's current text and counter. -/
def FileCache.observeFileEvents (s : FileCache) : List LocalFileEvent :=
  s.buffers.map fun pb => .OPEN pb.1 pb.2.changeCount pb.2.text

/-- The full sequence a subscriber observes: the replay prefix followed by
the live tail (`live` being the canonical events published after the
snapshot-and-subscribe step, which the source performs atomically). -/
def FileCache.observedEvents (s : FileCache) (live : List LocalFileEvent) :
    List LocalFileEvent :=
  s.observeFileEvents ++ live

/-- Whether an event is an `EDIT` on path `p`. -/
def isEditOn (p : NuclideUri) : FileEvent → Bool
  | .EDIT q _ _ _ _ _ => q = p
  | _ => false

/-- The range-replacement an `EDIT` event performs on a text (identity on
other kinds). -/
def editApply (text : List Char) : FileEvent → List Char
  | .EDIT _ oldRange _ _ newText _ => setTextInRange text oldRange newText
  | _ => text

/-- The per-event version consistency invariant (claim C8): an `OPEN` or
`EDIT` event carries the counter the affected buffer holds once the step's
mutation is done, a `CLOSE` event carries the counter the buffer held when
it was deleted. -/
def eventVersionConsistent (before after : FileCache)
    (ev : LocalFileEvent) : Prop :=
  match ev with
  | .OPEN p v _ => ∃ b, mapGet after.buffers p = some b ∧ b.changeCount = v
  | .EDIT p v _ _ _ _ =>
      ∃ b, mapGet after.buffers p = some b ∧ b.changeCount = v
  | .CLOSE p v => ∃ b, mapGet before.buffers p = some b ∧ b.changeCount = v

/-! ## Map lemmas -/

theorem mapGet_mapSet_self (m : List (NuclideUri × TextBuffer))
    (k : NuclideUri) (v : TextBuffer) : mapGet (mapSet m k v) k = some v := by
  induction m with
  | nil => simp [mapSet, mapGet]
  | cons hd tl ih =>
    by_cases h : hd.1 = k
    · simp [mapSet, mapGet, h]
    · simp [mapSet, mapGet, h, ih]

theorem mapGet_mapSet_ne (m : List (NuclideUri × TextBuffer))
    (k k' : NuclideUri) (v : TextBuffer) (h : k' ≠ k) :
    mapGet (mapSet m k v) k' = mapGet m k' := by
  induction m with
  | nil => simp [mapSet, mapGet, Ne.symm h]
  | cons hd tl ih =>
    by_cases hk : hd.1 = k
    · simp [mapSet, mapGet, hk, Ne.symm h]
    · simp [mapSet, mapGet, hk, ih]

theorem mapGet_mapDelete_ne (m : List (NuclideUri × TextBuffer))
    (k k' : NuclideUri) (h : k' ≠ k) :
    mapGet (mapDelete m k) k' = mapGet m k' := by
  induction m with
  | nil => simp [mapDelete, mapGet]
  | cons hd tl ih =>
    by_cases hk : hd.1 = k
    · simp [mapDelete, mapGet, hk, Ne.symm h]
    · simp [mapDelete, mapGet, hk, ih]

/-! ## Claims about single event steps -/

/-- Claim C2: applying an `Edit` whose version is not exactly the buffer's
current counter plus one, or whose `oldText` does not equal the buffer's
current text at `oldRange`, fails with `DesyncError`, leaves the buffer's
text and counter unchanged, and publishes no canonical event. -/
theorem edit_desync_unchanged (s : FileCache) (p : NuclideUri)
    (oldRange newRange : TextRange) (oldText newText : List Char)
    (version : Nat) (b : TextBuffer)
    (hb : mapGet s.buffers p = some b)
    (hbad : b.changeCount + 1 ≠ version ∨
      getTextInRange b.text oldRange ≠ oldText) :
    onFileEvent s (.EDIT p oldRange oldText newRange newText version) =
      ⟨some .desync, s, []⟩ := by
  rcases hbad with h | h
  · simp [onFileEvent, hb, h]
  · by_cases hv : b.changeCount + 1 ≠ version
    · simp [onFileEvent, hb, hv]
    · simp [onFileEvent, hb, hv, h]

/-- Witness for C2: a stored buffer at counter 5, an edit claiming
version 9 — rejected, state unchanged, nothing published. -/
theorem edit_desync_unchanged_witness :
    onFileEvent ⟨[(["a"], ⟨['x'], 5⟩)], []⟩
        (.EDIT ["a"] ⟨0, 1⟩ ['x'] ⟨0, 1⟩ ['y'] 9) =
      ⟨some .desync, ⟨[(["a"], ⟨['x'], 5⟩)], []⟩, []⟩ :=
  edit_desync_unchanged ⟨[(["a"], ⟨['x'], 5⟩)], []⟩ ["a"] ⟨0, 1⟩ ⟨0, 1⟩
    ['x'] ['y'] 9 ⟨['x'], 5⟩ (by decide) (Or.inl (by decide))

/-- Claim C4: a `Sync` whose version is strictly below the existing
buffer's counter is a silent no-op: no error, state unchanged, no
canonical event published. -/
theorem sync_stale_noop (s : FileCache) (p : NuclideUri)
    (contents : List Char) (version : Nat) (b : TextBuffer)
    (hb : mapGet s.buffers p = some b)
    (hstale : version < b.changeCount) :
    onFileEvent s (.SYNC p contents version) = ⟨none, s, []⟩ := by
  simp [onFileEvent, hb, FileCache.syncEdit, hstale]

/-- Witness for C4: buffer at counter 5, sync at version 4 — dropped. -/
theorem sync_stale_noop_witness :
    onFileEvent ⟨[(["a"], ⟨['x'], 5⟩)], []⟩ (.SYNC ["a"] ['z'] 4) =
      ⟨none, ⟨[(["a"], ⟨['x'], 5⟩)], []⟩, []⟩ :=
  sync_stale_noop ⟨[(["a"], ⟨['x'], 5⟩)], []⟩ ["a"] ['z'] 4 ⟨['x'], 5⟩
    (by decide) (by decide)

/-- Claim C5: an `Open` fails with `DesyncError` when a buffer for the path
already exists (leaving the state unchanged); otherwise it creates a buffer
with the given contents and counter equal to the given version, and
publishes a canonical `Open` local event for that path and version. -/
theorem open_spec (s : FileCache) (p : NuclideUri) (contents : List Char)
    (version : Nat) :
    (∀ b, mapGet s.buffers p = some b →
      onFileEvent s (.OPEN p contents version) = ⟨some .desync, s, []⟩) ∧
    (mapGet s.buffers p = none →
      onFileEvent s (.OPEN p contents version) =
        ⟨none, { s with buffers := mapSet s.buffers p ⟨contents, version⟩ },
         [.OPEN p version contents]⟩ ∧
      mapGet (onFileEvent s (.OPEN p contents version)).cache.buffers p =
        some ⟨contents, version⟩) := by
  refine ⟨fun b hb => ?_, fun hb => ⟨?_, ?_⟩⟩
  · simp [onFileEvent, hb]
  · simp [onFileEvent, hb, FileCache.openFile]
  · simp [onFileEvent, hb, FileCache.openFile, mapGet_mapSet_self]

/-- Witness for C5: opening a fresh path creates the buffer and publishes
the `Open`; a second open of the same path is rejected unchanged. -/
theorem open_spec_witness :
    (onFileEvent ⟨[], []⟩ (.OPEN ["a"] ['h', 'i'] 3) =
      ⟨none, ⟨[(["a"], ⟨['h', 'i'], 3⟩)], []⟩, [.OPEN ["a"] 3 ['h', 'i']]⟩ ∧
     mapGet (onFileEvent ⟨[], []⟩ (.OPEN ["a"] ['h', 'i'] 3)).cache.buffers
        ["a"] = some ⟨['h', 'i'], 3⟩) ∧
    onFileEvent ⟨[(["a"], ⟨['h', 'i'], 3⟩)], []⟩ (.OPEN ["a"] ['h', 'i'] 3) =
      ⟨some .desync, ⟨[(["a"], ⟨['h', 'i'], 3⟩)], []⟩, []⟩ := by
  refine ⟨(open_spec ⟨[], []⟩ ["a"] ['h', 'i'] 3).2 rfl, ?_⟩
  exact (open_spec ⟨[(["a"], ⟨['h', 'i'], 3⟩)], []⟩ ["a"] ['h', 'i'] 3).1
    ⟨['h', 'i'], 3⟩ (by decide)

/-- Claim C3: a `Sync` with version ≥ the existing buffer's counter
succeeds, sets the text to the synced contents and the counter to the
synced version, and publishes a synthesized `Edit` whose old range/text are
the previous full content and whose new range/text are the new full
content; with no existing buffer it is applied as an `Open`. -/
theorem sync_spec (s : FileCache) (p : NuclideUri) (contents : List Char)
    (version : Nat) :
    (∀ b, mapGet s.buffers p = some b → b.changeCount ≤ version →
      onFileEvent s (.SYNC p contents version) =
        ⟨none, { s with buffers := mapSet s.buffers p ⟨contents, version⟩ },
         [.EDIT p version (getRange b.text) b.text (getRange contents)
            contents]⟩ ∧
      mapGet (onFileEvent s (.SYNC p contents version)).cache.buffers p =
        some ⟨contents, version⟩) ∧
    (mapGet s.buffers p = none →
      onFileEvent s (.SYNC p contents version) =
        ⟨none, { s with buffers := mapSet s.buffers p ⟨contents, version⟩ },
         [.OPEN p version contents]⟩ ∧
      mapGet (onFileEvent s (.SYNC p contents version)).cache.buffers p =
        some ⟨contents, version⟩) := by
  constructor
  · intro b hb hle
    have hnot : ¬ version < b.changeCount := Nat.not_lt.mpr hle
    constructor
    · simp [onFileEvent, hb, FileCache.syncEdit, hnot]
    · simp [onFileEvent, hb, FileCache.syncEdit, hnot, mapGet_mapSet_self]
  · intro hb
    constructor
    · simp [onFileEvent, hb, FileCache.openFile]
    · simp [onFileEvent, hb, FileCache.openFile, mapGet_mapSet_self]

/-- Witness for C3: a buffer `"xy"` at counter 2 synced to `"z"` at
version 7 (skipping ahead) — text and counter forced, full-replace `Edit`
published; and a sync on an unopened path behaves as an `Open`. -/
theorem sync_spec_witness :
    (onFileEvent ⟨[(["a"], ⟨['x', 'y'], 2⟩)], []⟩ (.SYNC ["a"] ['z'] 7) =
      ⟨none, ⟨[(["a"], ⟨['z'], 7⟩)], []⟩,
       [.EDIT ["a"] 7 ⟨0, 2⟩ ['x', 'y'] ⟨0, 1⟩ ['z']]⟩ ∧
     mapGet (onFileEvent ⟨[(["a"], ⟨['x', 'y'], 2⟩)], []⟩
        (.SYNC ["a"] ['z'] 7)).cache.buffers ["a"] = some ⟨['z'], 7⟩) ∧
    (onFileEvent ⟨[], []⟩ (.SYNC ["b"] ['w'] 4) =
      ⟨none, ⟨[(["b"], ⟨['w'], 4⟩)], []⟩, [.OPEN ["b"] 4 ['w']]⟩ ∧
     mapGet (onFileEvent ⟨[], []⟩ (.SYNC ["b"] ['w'] 4)).cache.buffers
        ["b"] = some ⟨['w'], 4⟩) := by
  constructor
  · exact (sync_spec ⟨[(["a"], ⟨['x', 'y'], 2⟩)], []⟩ ["a"] ['z'] 7).1
      ⟨['x', 'y'], 2⟩ (by decide) (by decide)
  · exact (sync_spec ⟨[], []⟩ ["b"] ['w'] 4).2 rfl

/-! ## Claim C1: an `Open` followed by N accepted `Edit`s -/

/-- If path `p` holds a buffer with text `t` and counter `n` and a list of
`EDIT` events on `p` all apply without error, the final buffer for `p`
carries the left fold of the range-replacements and counter `n` plus the
number of edits. -/
theorem runEvents_edits (p : NuclideUri) (es : List FileEvent) :
    ∀ (s : FileCache) (t : List Char) (n : Nat) (s' : FileCache),
    (∀ e ∈ es, isEditOn p e = true) →
    mapGet s.buffers p = some ⟨t, n⟩ →
    runEvents s es = some s' →
    mapGet s'.buffers p =
      some ⟨List.foldl editApply t es, n + es.length⟩ := by
  induction es with
  | nil =>
    intro s t n s' _ hb hrun
    simp only [runEvents, Option.some.injEq] at hrun
    subst hrun
    simpa using hb
  | cons e rest ih =>
    intro s t n s' hall hb hrun
    have he : isEditOn p e = true := hall e (List.mem_cons_self e rest)
    have hrest : ∀ e' ∈ rest, isEditOn p e' = true :=
      fun e' he' => hall e' (List.mem_cons_of_mem e he')
    cases e with
    | OPEN q c v => simp [isEditOn] at he
    | CLOSE q v => simp [isEditOn] at he
    | SYNC q c v => simp [isEditOn] at he
    | EDIT q oldR oldT newR newT v =>
      have hq : q = p := by simpa [isEditOn] using he
      by_cases hv : n + 1 ≠ v
      · simp [runEvents, onFileEvent, hq, hb, hv] at hrun
      · by_cases ht : getTextInRange t oldR ≠ oldT
        · simp [runEvents, onFileEvent, hq, hb, hv, ht] at hrun
        · have hrun' :
              runEvents
                { s with
                  buffers :=
                    mapSet s.buffers p ⟨setTextInRange t oldR newT, n + 1⟩ }
                rest = some s' := by
            simpa [runEvents, onFileEvent, hq, hb, hv, ht] using hrun
          have hstep := ih _ (setTextInRange t oldR newT) (n + 1) s' hrest
            (mapGet_mapSet_self _ _ _) hrun'
          have hn : n + 1 + rest.length = n + (rest.length + 1) := by omega
          simpa [editApply, hn] using hstep

/-- Claim C8: every canonical local event published by a step carries a
version equal to the affected buffer's change counter at publication: an
`Open` carries the counter the new buffer was initialized to, an `Edit`
(including the one synthesized from a `Sync`) the counter after the
mutation, and a `Close` the counter the buffer held when deleted. -/
theorem published_event_version_matches (s : FileCache) (e : FileEvent)
    (ev : LocalFileEvent) (hev : ev ∈ (onFileEvent s e).events) :
    eventVersionConsistent s (onFileEvent s e).cache ev := by
  cases e with
  | OPEN p c v =>
    cases hm : mapGet s.buffers p with
    | some b => simp [onFileEvent, hm] at hev
    | none =>
      have hev' : ev = .OPEN p v c := by
        simpa [onFileEvent, hm, FileCache.openFile] using hev
      subst hev'
      simp only [onFileEvent, hm, FileCache.openFile, eventVersionConsistent]
      exact ⟨⟨c, v⟩, mapGet_mapSet_self _ _ _, rfl⟩
  | CLOSE p v =>
    cases hm : mapGet s.buffers p with
    | none => simp [onFileEvent, hm] at hev
    | some b =>
      have hev' : ev = .CLOSE p b.changeCount := by
        simpa [onFileEvent, hm, FileCache.closeFile] using hev
      subst hev'
      exact ⟨b, hm, rfl⟩
  | EDIT p oldR oldT newR newT v =>
    cases hm : mapGet s.buffers p with
    | none => simp [onFileEvent, hm] at hev
    | some b =>
      by_cases hv : b.changeCount + 1 ≠ v
      · simp [onFileEvent, hm, hv] at hev
      · by_cases ht : getTextInRange b.text oldR ≠ oldT
        · simp [onFileEvent, hm, hv, ht] at hev
        · have hev' : ev = .EDIT p v oldR oldT newR newT := by
            simpa [onFileEvent, hm, hv, ht] using hev
          subst hev'
          simp only [onFileEvent, hm, hv, ht, if_false,
            eventVersionConsistent]
          refine ⟨⟨setTextInRange b.text oldR newT, b.changeCount + 1⟩,
            ?_, ?_⟩
          · simp [hv, ht, mapGet_mapSet_self]
          · exact not_ne_iff.mp hv
  | SYNC p c v =>
    cases hm : mapGet s.buffers p with
    | none =>
      have hev' : ev = .OPEN p v c := by
        simpa [onFileEvent, hm, FileCache.openFile] using hev
      subst hev'
      simp only [onFileEvent, hm, FileCache.openFile, eventVersionConsistent]
      exact ⟨⟨c, v⟩, mapGet_mapSet_self _ _ _, rfl⟩
    | some b =>
      by_cases hlt : v < b.changeCount
      · simp [onFileEvent, hm, FileCache.syncEdit, hlt] at hev
      · have hev' : ev = .EDIT p v (getRange b.text) b.text (getRange c) c := by
          simpa [onFileEvent, hm, FileCache.syncEdit, hlt] using hev
        subst hev'
        simp only [onFileEvent, hm, FileCache.syncEdit, hlt, if_false,
          eventVersionConsistent]
        refine ⟨⟨c, v⟩, ?_, rfl⟩
        simp [hlt, mapGet_mapSet_self]

/-- Witness for C8: opening a fresh buffer publishes an `Open` whose
version is the counter the stored buffer was initialized to. -/
theorem published_event_version_matches_witness :
    eventVersionConsistent ⟨[], []⟩
      (onFileEvent ⟨[], []⟩ (.OPEN ["a"] ['x'] 2)).cache
      (.OPEN ["a"] 2 ['x']) :=
  published_event_version_matches ⟨[], []⟩ (.OPEN ["a"] ['x'] 2)
    (.OPEN ["a"] 2 ['x']) (by decide)

/-- Claim C9: applying any file event leaves the buffer entry of every
other path untouched — same presence, text and counter — whether the step
succeeds or fails. -/
theorem other_paths_unchanged (s : FileCache) (e : FileEvent)
    (q : NuclideUri) (hq : q ≠ e.path) :
    mapGet (onFileEvent s e).cache.buffers q = mapGet s.buffers q := by
  cases e with
  | OPEN p c v =>
    have hq' : q ≠ p := hq
    cases hm : mapGet s.buffers p with
    | some b => simp [onFileEvent, hm]
    | none =>
      simp [onFileEvent, hm, FileCache.openFile, mapGet_mapSet_ne _ _ _ _ hq']
  | CLOSE p v =>
    have hq' : q ≠ p := hq
    cases hm : mapGet s.buffers p with
    | none => simp [onFileEvent, hm]
    | some b =>
      simp [onFileEvent, hm, FileCache.closeFile, mapGet_mapDelete_ne _ _ _ hq']
  | EDIT p oldR oldT newR newT v =>
    have hq' : q ≠ p := hq
    cases hm : mapGet s.buffers p with
    | none => simp [onFileEvent, hm]
    | some b =>
      by_cases hv : b.changeCount + 1 ≠ v
      · simp [onFileEvent, hm, hv]
      · by_cases ht : getTextInRange b.text oldR ≠ oldT
        · simp [onFileEvent, hm, hv, ht]
        · simp [onFileEvent, hm, hv, ht, mapGet_mapSet_ne _ _ _ _ hq']
  | SYNC p c v =>
    have hq' : q ≠ p := hq
    cases hm : mapGet s.buffers p with
    | none =>
      simp [onFileEvent, hm, FileCache.openFile, mapGet_mapSet_ne _ _ _ _ hq']
    | some b =>
      by_cases hlt : v < b.changeCount
      · simp [onFileEvent, hm, FileCache.syncEdit, hlt]
      · simp [onFileEvent, hm, FileCache.syncEdit, hlt,
          mapGet_mapSet_ne _ _ _ _ hq']

/-- Witness for C9: an edit of `"a"` leaves the buffer stored at `"b"`
untouched. -/
theorem other_paths_unchanged_witness :
    mapGet (onFileEvent ⟨[(["a"], ⟨['x'], 1⟩), (["b"], ⟨['y'], 4⟩)], []⟩
        (.EDIT ["a"] ⟨0, 1⟩ ['x'] ⟨0, 1⟩ ['z'] 2)).cache.buffers ["b"] =
      mapGet (⟨[(["a"], ⟨['x'], 1⟩), (["b"], ⟨['y'], 4⟩)], []⟩ :
        FileCache).buffers ["b"] :=
  other_paths_unchanged ⟨[(["a"], ⟨['x'], 1⟩), (["b"], ⟨['y'], 4⟩)], []⟩
    (.EDIT ["a"] ⟨0, 1⟩ ['x'] ⟨0, 1⟩ ['z'] 2) ["b"] (by decide)

/-- `find?` returns the first element satisfying the predicate: everything
before it in the list fails the predicate. -/
theorem find?_first {α : Type} (f : α → Bool) (l : List α) (a : α)
    (h : l.find? f = some a) :
    f a = true ∧ ∃ l1 l2, l = l1 ++ a :: l2 ∧ ∀ x ∈ l1, f x = false := by
  induction l with
  | nil => simp [List.find?] at h
  | cons hd tl ih =>
    by_cases hf : f hd
    · have ha : hd = a := by simpa [List.find?, hf] using h
      subst ha
      exact ⟨hf, [], tl, rfl, by simp⟩
    · have h' : tl.find? f = some a := by
        simpa [List.find?, Bool.of_not_eq_true hf] using h
      obtain ⟨hfa, l1, l2, heq, hall⟩ := ih h'
      refine ⟨hfa, hd :: l1, l2, by simp [heq], ?_⟩
      intro x hx
      rcases List.mem_cons.mp hx with hx | hx
      · subst hx; exact Bool.of_not_eq_true hf
      · exact hall x hx

/-- Claim C10: `getContainingDirectory` returns the first open directory in
iteration order that is a path-ancestor of the query (every earlier
directory is not an ancestor), returns absent exactly when no open
directory contains the path, and does not necessarily return the most
deeply nested containing directory. -/
theorem getContainingDirectory_first (s : FileCache) (p : NuclideUri) :
    (s.getContainingDirectory p = none ↔
      ∀ d ∈ s.getOpenDirectories, uriContains d p = false) ∧
    (∀ d, s.getContainingDirectory p = some d →
      uriContains d p = true ∧
      ∃ l1 l2, s.getOpenDirectories = l1 ++ d :: l2 ∧
        ∀ d' ∈ l1, uriContains d' p = false) ∧
    (∃ (s' : FileCache) (q d d' : NuclideUri),
      s'.getContainingDirectory q = some d ∧
      d' ∈ s'.getOpenDirectories ∧ uriContains d' q = true ∧
      d.length < d'.length) := by
  refine ⟨?_, fun d hd => find?_first _ _ _ hd, ?_⟩
  · rw [FileCache.getContainingDirectory, List.find?_eq_none]
    constructor
    · intro hnone d hd
      exact Bool.of_not_eq_true (hnone d hd)
    · intro hall d hd
      simp [hall d hd]
  · refine ⟨⟨[], [["a"], ["a", "b"]]⟩, ["a", "b", "c"], ["a"],
      ["a", "b"], ?_, ?_, ?_, ?_⟩ <;> decide

/-- Witness for C10: with open directories `[a]` then `[a, b]`, the query
`[a, b, c]` returns the first ancestor `[a]` even though `[a, b]` is more
deeply nested. -/
theorem getContainingDirectory_first_witness :
    uriContains ["a"] ["a", "b", "c"] = true ∧
    ∃ l1 l2,
      FileCache.getOpenDirectories ⟨[], [["a"], ["a", "b"]]⟩ =
        l1 ++ ["a"] :: l2 ∧
      ∀ d' ∈ l1, uriContains d' ["a", "b", "c"] = false :=
  (getContainingDirectory_first ⟨[], [["a"], ["a", "b"]]⟩
    ["a", "b", "c"]).2.1 ["a"] (by decide)

/-- Claim C1: after an accepted `Open(contents, v0)` followed by N `Edit`s
that each pass validation (which is exactly when `runEvents` succeeds), the
buffer's counter is `v0 + N` and its text is the result of applying the N
range-replacements to the opened contents in order. -/
theorem open_then_edits (s0 : FileCache) (p : NuclideUri)
    (contents : List Char) (v0 : Nat) (es : List FileEvent) (s' : FileCache)
    (hall : ∀ e ∈ es, isEditOn p e = true)
    (hrun : runEvents s0 (.OPEN p contents v0 :: es) = some s') :
    mapGet s'.buffers p =
      some ⟨List.foldl editApply contents es, v0 + es.length⟩ := by
  cases hbuf : mapGet s0.buffers p with
  | some b => simp [runEvents, onFileEvent, hbuf] at hrun
  | none =>
    have hrun' :
        runEvents { s0 with buffers := mapSet s0.buffers p ⟨contents, v0⟩ }
          es = some s' := by
      simpa [runEvents, onFileEvent, hbuf, FileCache.openFile] using hrun
    exact runEvents_edits p es _ contents v0 s' hall
      (mapGet_mapSet_self _ _ _) hrun'

/-- The common re-check performed by both fetch paths: a buffer comes back
only when it exists and its counter equals the requested version. -/
theorem getBufferAtVersion_cases (s : FileCache) (w : Bool)
    (fv : FileVersion) :
    (∀ b, s.getBufferAtVersion w fv = some b →
      mapGet s.buffers fv.filePath = some b ∧ b.changeCount = fv.version) ∧
    (∀ b, mapGet s.buffers fv.filePath = some b →
      b.changeCount ≠ fv.version → s.getBufferAtVersion w fv = none) ∧
    (mapGet s.buffers fv.filePath = none →
      s.getBufferAtVersion w fv = none) := by
  unfold FileCache.getBufferAtVersion FileCache.getBuffer
  cases w with
  | false => simp
  | true =>
    refine ⟨fun b hb => ?_, fun b hb hne => ?_, fun hb => ?_⟩
    · cases hm : mapGet s.buffers fv.filePath with
      | none => rw [hm] at hb; simp at hb
      | some b' =>
        rw [hm] at hb
        by_cases hc : b'.changeCount = fv.version
        · simp only [Bool.not_true, Bool.false_eq_true, if_false, hc,
            if_true, Option.some.injEq] at hb
          cases hb
          exact ⟨rfl, hc⟩
        · simp [hc] at hb
    · rw [hb]
      simp [hne]
    · rw [hb]
      simp

/-- Claim C6: both the blocking fetch (`getBufferAtVersion`, once its wait
has resolved with `w`) and the non-blocking fetch
(`_tryGetBufferAtVersionSynchronously`, with the coordinator's answer
`isAt`) return a buffer only when one exists for the path with counter
exactly the requested version, and return absent on any mismatch —
including a counter that advanced past the request or a closed buffer. -/
theorem fetchBufferAtVersion_exact (s : FileCache) (w isAt : Bool)
    (fv : FileVersion) :
    (∀ b, s.getBufferAtVersion w fv = some b →
      mapGet s.buffers fv.filePath = some b ∧ b.changeCount = fv.version) ∧
    (∀ b, s.tryGetBufferAtVersionSynchronously isAt fv = some b →
      mapGet s.buffers fv.filePath = some b ∧ b.changeCount = fv.version) ∧
    (∀ b, mapGet s.buffers fv.filePath = some b →
      b.changeCount ≠ fv.version →
      s.getBufferAtVersion w fv = none ∧
      s.tryGetBufferAtVersionSynchronously isAt fv = none) ∧
    (mapGet s.buffers fv.filePath = none →
      s.getBufferAtVersion w fv = none ∧
      s.tryGetBufferAtVersionSynchronously isAt fv = none) := by
  obtain ⟨h1, h2, h3⟩ := getBufferAtVersion_cases s w fv
  obtain ⟨g1, g2, g3⟩ := getBufferAtVersion_cases s isAt fv
  have hsame : ∀ g, s.tryGetBufferAtVersionSynchronously g fv =
      s.getBufferAtVersion g fv := fun g => rfl
  refine ⟨h1, fun b hb => g1 b ?_, fun b hb hne => ⟨h2 b hb hne, ?_⟩,
    fun hb => ⟨h3 hb, ?_⟩⟩
  · rw [← hsame]; exact hb
  · rw [hsame]; exact g2 b hb hne
  · rw [hsame]; exact g3 hb

/-- Witness for C6: a buffer at counter 5 requested at version 4 — both
fetch paths answer absent even though the waits reported success. -/
theorem fetchBufferAtVersion_exact_witness :
    FileCache.getBufferAtVersion ⟨[(["a"], ⟨['x'], 5⟩)], []⟩ true
        ⟨["a"], 4⟩ = none ∧
    FileCache.tryGetBufferAtVersionSynchronously ⟨[(["a"], ⟨['x'], 5⟩)], []⟩
        true ⟨["a"], 4⟩ = none :=
  (fetchBufferAtVersion_exact ⟨[(["a"], ⟨['x'], 5⟩)], []⟩ true true
    ⟨["a"], 4⟩).2.2.1 ⟨['x'], 5⟩ (by decide) (by decide)

/-- Claim C7: a new subscriber's observed sequence starts with exactly one
synthetic `Open` per currently open buffer — in buffer-map order, carrying
that buffer's live contents and current counter — and the remainder is
exactly the live tail: no canonical event published after the (atomic)
snapshot-and-subscribe step is lost or duplicated. -/
theorem observeFileEvents_replay (s : FileCache)
    (live : List LocalFileEvent) :
    (s.observeFileEvents).length = s.buffers.length ∧
    (s.observedEvents live).take s.buffers.length = s.observeFileEvents ∧
    (s.observedEvents live).drop s.buffers.length = live ∧
    (∀ i, ∀ h : i < s.buffers.length,
      (s.observedEvents live)[i]? =
        some (.OPEN (s.buffers.get ⟨i, h⟩).1
          (s.buffers.get ⟨i, h⟩).2.changeCount
          (s.buffers.get ⟨i, h⟩).2.text)) := by
  refine ⟨by simp [FileCache.observeFileEvents], ?_, ?_, ?_⟩
  · have : s.buffers.length = (s.observeFileEvents).length := by
      simp [FileCache.observeFileEvents]
    rw [FileCache.observedEvents, this, List.take_left]
  · have : s.buffers.length = (s.observeFileEvents).length := by
      simp [FileCache.observeFileEvents]
    rw [FileCache.observedEvents, this, List.drop_left]
  · intro i h
    have hlt : i < (s.observeFileEvents).length := by
      simpa [FileCache.observeFileEvents] using h
    rw [FileCache.observedEvents, List.getElem?_append_left hlt]
    simp [FileCache.observeFileEvents, List.getElem?_map,
      List.getElem?_eq_getElem h]

/-- Witness for C7: two open buffers and one live event — the subscriber
sees the two synthetic `Open`s first (index 0 checked via the theorem) and
then exactly the live tail. -/
theorem observeFileEvents_replay_witness :
    (FileCache.observedEvents
        ⟨[(["a"], ⟨['x'], 1⟩), (["b"], ⟨['y'], 2⟩)], []⟩
        [.CLOSE ["a"] 1])[0]? =
      some (.OPEN ["a"] 1 ['x']) :=
  (observeFileEvents_replay
    ⟨[(["a"], ⟨['x'], 1⟩), (["b"], ⟨['y'], 2⟩)], []⟩
    [.CLOSE ["a"] 1]).2.2.2 0 (by decide)

/-- Witness for C1: open `"ab"` at version 1, then two accepted edits —
replace `"a"` by `"xy"` (version 2), then replace `"yb"` by `"q"`
(version 3); final text `"xq"`, counter 3 = 1 + 2. -/
theorem open_then_edits_witness :
    mapGet (⟨[(["a"], ⟨['x', 'q'], 3⟩)], []⟩ : FileCache).buffers ["a"] =
      some ⟨List.foldl editApply ['a', 'b']
        [.EDIT ["a"] ⟨0, 1⟩ ['a'] ⟨0, 2⟩ ['x', 'y'] 2,
         .EDIT ["a"] ⟨1, 3⟩ ['y', 'b'] ⟨1, 2⟩ ['q'] 3], 1 + 2⟩ :=
  open_then_edits ⟨[], []⟩ ["a"] ['a', 'b'] 1
    [.EDIT ["a"] ⟨0, 1⟩ ['a'] ⟨0, 2⟩ ['x', 'y'] 2,
     .EDIT ["a"] ⟨1, 3⟩ ['y', 'b'] ⟨1, 2⟩ ['q'] 3]
    ⟨[(["a"], ⟨['x', 'q'], 3⟩)], []⟩ (by decide) (by decide)
